import Mathlib

/-!
# Verification of the ProjectFlow backend (`backend/server.py`)

A shallow embedding of the project-management backend: the nested document
hierarchy Project → Task → TimeEntry / Milestone, the owner-scoped CRUD
operations, and the analytics aggregators.  Python dictionaries holding the
documents are modelled as Lean structures; the Mongo collection
`db.projects` is a `List Project`; `find_one` / `find_one_and_update` /
`update_one` with an `{id, owner_id}` filter become first-match operations on
that list.  Timestamps produced by `datetime.now(...)` are passed in as
explicit parameters (one per call site, in evaluation order).  Python `int`
is `Int`, Python `float` values that are merely stored and compared are
`Rat`, and `round(x, 1)` is modelled at the rational level.
-/

namespace ProjectFlow

/-- `TimeEntry` model (server.py, class TimeEntry). -/
structure TimeEntry where
  id : String
  description : String := ""
  duration_minutes : Int
  date : String
  created_at : String
deriving Repr, DecidableEq

/-- `Milestone` model (server.py, class Milestone). -/
structure Milestone where
  id : String
  title : String
  description : String := ""
  due_date : String
  completed : Bool := false
  completed_at : Option String := none
deriving Repr, DecidableEq

/-- `Task` model (server.py, class Task). -/
structure Task where
  id : String
  title : String
  description : String := ""
  priority : String := "medium"
  status : String := "todo"
  due_date : Option String := none
  estimated_hours : Option Rat := none
  time_entries : List TimeEntry := []
  created_at : String
  completed_at : Option String := none
deriving Repr, DecidableEq

/-- `Project` model (server.py, class Project). -/
structure Project where
  id : String
  name : String
  description : String := ""
  color : String := "#4F46E5"
  status : String := "active"
  deadline : Option String := none
  owner_id : String
  tasks : List Task := []
  milestones : List Milestone := []
  created_at : String
  updated_at : String
deriving Repr, DecidableEq

/-- The `db.projects` Mongo collection: an ordered list of documents. -/
abbrev DB := List Project

/-- Errors raised by the routes (`HTTPException(status_code=404, detail=...)`).
Only the not-found family matters to the claims; the detail string is kept so
that "indistinguishable" error responses can be compared as values. -/
inductive ApiError where
  | notFound (detail : String)
deriving Repr, DecidableEq

/-- `db.projects.find_one({"id": pid, "owner_id": owner})`: first document
matching both the project id and the caller's owner id. -/
def findProject (db : DB) (owner pid : String) : Option Project :=
  db.find? (fun p => p.id == pid && p.owner_id == owner)

/-- Replace the first element satisfying `pred` by its image under `f`
(later elements untouched) — the effect of Mongo's `update_one` /
`find_one_and_update`, and of Python's in-place `tasks[task_index] = ...`
on the first index whose id matches. -/
def updateFirstBy (pred : α → Bool) (f : α → α) : List α → List α
  | [] => []
  | x :: xs => if pred x then f x :: xs else x :: updateFirstBy pred f xs

/-- `find_one_and_update(filter, update, return_document=True)`: locate the
first matching document, apply the update, return the updated document and
the new collection.  (`None`, unchanged collection) when nothing matches. -/
def findOneAndUpdate (pred : Project → Bool) (f : Project → Project) :
    DB → Option Project × DB
  | [] => (none, [])
  | p :: rest =>
    if pred p then (some (f p), f p :: rest)
    else
      let r := findOneAndUpdate pred f rest
      (r.1, p :: r.2)

/-- `db.projects.find({"owner_id": owner}).to_list(1000)`. -/
def ownerProjects (db : DB) (owner : String) : List Project :=
  (db.filter (fun p => p.owner_id == owner)).take 1000

-- ============ PROJECT ROUTES ============

/-- `GET /projects/{project_id}` (server.py `get_project`): owner-scoped
`find_one`; 404 "Project not found" when absent or not owned. -/
def get_project (db : DB) (caller pid : String) : Except ApiError Project :=
  match findProject db caller pid with
  | none => .error (.notFound "Project not found")
  | some p => .ok p

/-- The five optional fields of `ProjectUpdate`; a Python `None` (field absent
or explicit null) is `none`. -/
structure ProjectUpdate where
  name : Option String := none
  description : Option String := none
  color : Option String := none
  deadline : Option String := none
  status : Option String := none
deriving Repr, DecidableEq

/-- The `$set` document of `update_project`: every non-`None` patch field plus
`updated_at = now`, applied to a project document. -/
def applyProjectUpdate (u : ProjectUpdate) (now : String) (p : Project) : Project :=
  { p with
    name := u.name.getD p.name
    description := u.description.getD p.description
    color := u.color.getD p.color
    deadline := match u.deadline with | some d => some d | none => p.deadline
    status := u.status.getD p.status
    updated_at := now }

/-- `PUT /projects/{project_id}` (server.py `update_project`):
`find_one_and_update({"id": pid, "owner_id": caller}, {"$set": update_dict})`
where `update_dict` keeps only non-`None` fields and always carries
`updated_at = now`. -/
def update_project (db : DB) (caller pid : String) (u : ProjectUpdate) (now : String) :
    Except ApiError Project × DB :=
  let r := findOneAndUpdate (fun p => p.id == pid && p.owner_id == caller)
      (applyProjectUpdate u now) db
  match r.1 with
  | none => (.error (.notFound "Project not found"), r.2)
  | some p => (.ok p, r.2)

/-- `DELETE /projects/{project_id}` (server.py `delete_project`):
`delete_one({"id": pid, "owner_id": caller})`; 404 when nothing deleted. -/
def delete_project (db : DB) (caller pid : String) : Except ApiError Unit × DB :=
  let pred : Project → Bool := fun p => p.id == pid && p.owner_id == caller
  if db.any pred then (.ok (), db.eraseP pred)
  else (.error (.notFound "Project not found"), db)

-- ============ TASK ROUTES ============

/-- `TaskCreate` body (server.py). -/
structure TaskCreate where
  title : String
  description : Option String := none
  priority : String := "medium"
  due_date : Option String := none
  estimated_hours : Option Rat := none
deriving Repr, DecidableEq

/-- `POST /projects/{project_id}/tasks` (server.py `create_task`): build the
Task (fresh id `tid`, `created_at = nowT`, status "todo", empty time entries),
then `find_one_and_update` pushing it onto `tasks` and setting
`updated_at = now`.  `tid`/`nowT`/`now` stand for the uuid and the two
`datetime.now` call sites. -/
def create_task (db : DB) (caller pid : String) (c : TaskCreate)
    (tid nowT now : String) : Except ApiError Task × DB :=
  let task : Task :=
    { id := tid, title := c.title, description := c.description.getD ""
      priority := c.priority, status := "todo", due_date := c.due_date
      estimated_hours := c.estimated_hours, time_entries := []
      created_at := nowT, completed_at := none }
  let r := findOneAndUpdate (fun p => p.id == pid && p.owner_id == caller)
      (fun p => { p with tasks := p.tasks ++ [task], updated_at := now }) db
  match r.1 with
  | none => (.error (.notFound "Project not found"), r.2)
  | some _ => (.ok task, r.2)

/-- The six optional fields of `TaskUpdate`. -/
structure TaskUpdate where
  title : Option String := none
  description : Option String := none
  priority : Option String := none
  status : Option String := none
  due_date : Option String := none
  estimated_hours : Option Rat := none
deriving Repr, DecidableEq

/-- The in-place merge of `update_task`: `update_dict` (the non-`None` patch
fields) is merged into the located task dict, after the completed_at rule:
`if update_dict.get("status") == "done" and prior != "done": completed_at = now`
`elif update_dict.get("status") and update_dict.get("status") != "done": completed_at = None`.
Note the second guard is Python *truthiness*: a supplied empty-string status
is merged but does not clear `completed_at`. -/
def applyTaskUpdate (u : TaskUpdate) (now : String) (t : Task) : Task :=
  let newCompleted : Option String :=
    match u.status with
    | some s =>
      if s == "done" then (if t.status == "done" then t.completed_at else some now)
      else if s == "" then t.completed_at
      else none
    | none => t.completed_at
  { t with
    title := u.title.getD t.title
    description := u.description.getD t.description
    priority := u.priority.getD t.priority
    status := u.status.getD t.status
    due_date := match u.due_date with | some d => some d | none => t.due_date
    estimated_hours := match u.estimated_hours with | some h => some h | none => t.estimated_hours
    completed_at := newCompleted }

/-- `PUT /projects/{project_id}/tasks/{task_id}` (server.py `update_task`):
owner-scoped `find_one`; locate first task whose id matches (404 "Task not
found" if absent); merge the patch with the completed_at rule; then
`update_one({"id": pid}, {"$set": {"tasks": tasks, "updated_at": nowU}})`.
`nowC` is the `datetime.now` used for `completed_at`, `nowU` the later one
for `updated_at`. -/
def update_task (db : DB) (caller pid tid : String) (u : TaskUpdate)
    (nowC nowU : String) : Except ApiError Task × DB :=
  match findProject db caller pid with
  | none => (.error (.notFound "Project not found"), db)
  | some proj =>
    match proj.tasks.find? (fun t => t.id == tid) with
    | none => (.error (.notFound "Task not found"), db)
    | some told =>
      let newTasks := updateFirstBy (fun t => t.id == tid) (applyTaskUpdate u nowC) proj.tasks
      let db' := updateFirstBy (fun p => p.id == pid)
          (fun p => { p with tasks := newTasks, updated_at := nowU }) db
      (.ok (applyTaskUpdate u nowC told), db')

/-- `DELETE /projects/{project_id}/tasks/{task_id}` (server.py `delete_task`):
`find_one_and_update` with `$pull` of the matching task id and
`$set updated_at = now`; 404 only when the project is absent/not owned. -/
def delete_task (db : DB) (caller pid tid : String) (now : String) :
    Except ApiError Unit × DB :=
  let r := findOneAndUpdate (fun p => p.id == pid && p.owner_id == caller)
      (fun p => { p with tasks := p.tasks.filter (fun t => !(t.id == tid)),
                         updated_at := now }) db
  match r.1 with
  | none => (.error (.notFound "Project not found"), r.2)
  | some _ => (.ok (), r.2)

-- ============ TIME TRACKING ROUTES ============

/-- `TimeEntryCreate` body (server.py). -/
structure TimeEntryCreate where
  description : Option String := none
  duration_minutes : Int
  date : String
deriving Repr, DecidableEq

/-- `POST /projects/{project_id}/tasks/{task_id}/time` (server.py
`add_time_entry`): build the entry (fresh id `eid`, `created_at = nowE`),
owner-scoped `find_one`, locate the first task whose id matches (404 "Task
not found" if absent), append the entry to its `time_entries`, then
`update_one({"id": pid}, {"$set": {"tasks": tasks, "updated_at": now}})`. -/
def add_time_entry (db : DB) (caller pid tid : String) (c : TimeEntryCreate)
    (eid nowE now : String) : Except ApiError TimeEntry × DB :=
  let entry : TimeEntry :=
    { id := eid, description := c.description.getD ""
      duration_minutes := c.duration_minutes, date := c.date, created_at := nowE }
  match findProject db caller pid with
  | none => (.error (.notFound "Project not found"), db)
  | some proj =>
    match proj.tasks.find? (fun t => t.id == tid) with
    | none => (.error (.notFound "Task not found"), db)
    | some _ =>
      let newTasks := updateFirstBy (fun t => t.id == tid)
          (fun t => { t with time_entries := t.time_entries ++ [entry] }) proj.tasks
      let db' := updateFirstBy (fun p => p.id == pid)
          (fun p => { p with tasks := newTasks, updated_at := now }) db
      (.ok entry, db')

/-- `DELETE /projects/{project_id}/tasks/{task_id}/time/{time_id}` (server.py
`delete_time_entry`): owner-scoped `find_one`, locate the task (404 "Task not
found" if absent), filter the entry with matching id out of `time_entries`
(no error when absent), persist with `updated_at = now`. -/
def delete_time_entry (db : DB) (caller pid tid eid : String) (now : String) :
    Except ApiError Unit × DB :=
  match findProject db caller pid with
  | none => (.error (.notFound "Project not found"), db)
  | some proj =>
    match proj.tasks.find? (fun t => t.id == tid) with
    | none => (.error (.notFound "Task not found"), db)
    | some _ =>
      let newTasks := updateFirstBy (fun t => t.id == tid)
          (fun t => { t with time_entries := t.time_entries.filter (fun te => !(te.id == eid)) })
          proj.tasks
      let db' := updateFirstBy (fun p => p.id == pid)
          (fun p => { p with tasks := newTasks, updated_at := now }) db
      (.ok (), db')

-- ============ MILESTONE ROUTES ============

/-- `MilestoneCreate` body (server.py). -/
structure MilestoneCreate where
  title : String
  description : Option String := none
  due_date : String
deriving Repr, DecidableEq

/-- `POST /projects/{project_id}/milestones` (server.py `create_milestone`):
build the milestone (fresh id `mid`, completed false, completed_at null),
`find_one_and_update` pushing it onto `milestones` with `updated_at = now`. -/
def create_milestone (db : DB) (caller pid : String) (c : MilestoneCreate)
    (mid now : String) : Except ApiError Milestone × DB :=
  let m : Milestone :=
    { id := mid, title := c.title, description := c.description.getD ""
      due_date := c.due_date, completed := false, completed_at := none }
  let r := findOneAndUpdate (fun p => p.id == pid && p.owner_id == caller)
      (fun p => { p with milestones := p.milestones ++ [m], updated_at := now }) db
  match r.1 with
  | none => (.error (.notFound "Project not found"), r.2)
  | some _ => (.ok m, r.2)

/-- The completion toggle applied to the located milestone dict:
`milestones[i]["completed"] = completed;`
`milestones[i]["completed_at"] = now if completed else None` — unconditional,
independent of the prior state. -/
def applyMilestoneToggle (completed : Bool) (now : String) (m : Milestone) : Milestone :=
  { m with completed := completed
           completed_at := if completed then some now else none }

/-- `PUT /projects/{project_id}/milestones/{milestone_id}` (server.py
`update_milestone`): owner-scoped `find_one`, locate the first milestone whose
id matches (404 "Milestone not found" if absent), apply the completion toggle,
then `update_one({"id": pid}, {"$set": {"milestones": ..., "updated_at": nowU}})`.
`nowC` is the `datetime.now` for `completed_at`, `nowU` the one for `updated_at`. -/
def update_milestone (db : DB) (caller pid mid : String) (completed : Bool)
    (nowC nowU : String) : Except ApiError Milestone × DB :=
  match findProject db caller pid with
  | none => (.error (.notFound "Project not found"), db)
  | some proj =>
    match proj.milestones.find? (fun m => m.id == mid) with
    | none => (.error (.notFound "Milestone not found"), db)
    | some mOld =>
      let newMs := updateFirstBy (fun m => m.id == mid) (applyMilestoneToggle completed nowC)
          proj.milestones
      let db' := updateFirstBy (fun p => p.id == pid)
          (fun p => { p with milestones := newMs, updated_at := nowU }) db
      (.ok (applyMilestoneToggle completed nowC mOld), db')

/-- `DELETE /projects/{project_id}/milestones/{milestone_id}` (server.py
`delete_milestone`): `find_one_and_update` with `$pull` of the matching
milestone id and `$set updated_at = now`; 404 only when the project is
absent/not owned. -/
def delete_milestone (db : DB) (caller pid mid : String) (now : String) :
    Except ApiError Unit × DB :=
  let r := findOneAndUpdate (fun p => p.id == pid && p.owner_id == caller)
      (fun p => { p with milestones := p.milestones.filter (fun m => !(m.id == mid)),
                         updated_at := now }) db
  match r.1 with
  | none => (.error (.notFound "Project not found"), r.2)
  | some _ => (.ok (), r.2)

-- ============ EXTERNAL MODELS: datetime AND round ============

/-- A Python `datetime` value: a naive clock reading in microseconds on a
proleptic Gregorian axis, plus an optional UTC offset in minutes.
`tzoffset = none` is an offset-naive datetime, `some o` an aware one. -/
structure PyDateTime where
  naiveUs : Int
  tzoffset : Option Int
deriving Repr, DecidableEq

/-- Gregorian leap-year test. -/
def isLeap (y : Nat) : Bool := y % 4 == 0 && (y % 100 != 0 || y % 400 == 0)

/-- Days in a Gregorian month. -/
def daysInMonth (y m : Nat) : Nat :=
  if m == 2 then (if isLeap y then 29 else 28)
  else if m == 4 || m == 6 || m == 9 || m == 11 then 30 else 31

/-- Day number of a Gregorian civil date (valid for year ≥ 1, which is all
Python's datetime admits); monotone in (y, m, d). -/
def daysFromCivil (y m d : Nat) : Nat :=
  let y' := if m ≤ 2 then y - 1 else y
  let era := y' / 400
  let yoe := y' - era * 400
  let mp := (m + 9) % 12
  let doy := (153 * mp + 2) / 5 + d - 1
  let doe := yoe * 365 + yoe / 4 - yoe / 100 + doy
  era * 146097 + doe

/-- Microseconds on the naive clock axis for a civil date-time. -/
def mkNaiveUs (y mo d hh mi ss us : Nat) : Int :=
  (((((daysFromCivil y mo d) * 24 + hh) * 60 + mi) * 60 + ss) * 1000000 + us : Nat)

/-- Read exactly `n` ASCII digits (most significant first) off a character
list, accumulating into `acc`. -/
def readDigits : Nat → Nat → List Char → Option (Nat × List Char)
  | 0, acc, cs => some (acc, cs)
  | _ + 1, _, [] => none
  | n + 1, acc, c :: cs =>
    if c.isDigit then readDigits n (acc * 10 + (c.toNat - 48)) cs else none

/-- Read a fractional-seconds field: one to six digits, scaled to
microseconds. -/
def readFracUs (cs : List Char) : Option (Nat × List Char) :=
  let ds := cs.takeWhile Char.isDigit
  let rest := cs.dropWhile Char.isDigit
  if ds.length == 0 || 6 < ds.length then none
  else some ((ds.foldl (fun a c => a * 10 + (c.toNat - 48)) 0) * 10 ^ (6 - ds.length), rest)

/-- Read an optional trailing UTC offset `±HH:MM`; `some none` when the
input is exhausted (offset-naive), `some (some minutes)` on a valid offset,
`none` on trailing garbage. -/
def readOffsetTail (cs : List Char) : Option (Option Int) :=
  match cs with
  | [] => some none
  | sign :: cs1 =>
    if sign == '+' || sign == '-' then
      match readDigits 2 0 cs1 with
      | some (oh, ':' :: cs2) =>
        match readDigits 2 0 cs2 with
        | some (om, []) =>
          if oh ≤ 23 && om ≤ 59 then
            some (some (if sign == '+' then ((oh * 60 + om : Nat) : Int)
                        else -((oh * 60 + om : Nat) : Int)))
          else none
        | _ => none
      | _ => none
    else none

/-- Read the time-of-day tail `HH:MM[:SS[.ffffff]][±HH:MM]` after the date
and separator. -/
def readTimeTail (y mo d : Nat) (cs : List Char) : Option PyDateTime :=
  match readDigits 2 0 cs with
  | some (hh, ':' :: cs1) =>
    match readDigits 2 0 cs1 with
    | none => none
    | some (mi, cs2) =>
      if 23 < hh || 59 < mi then none
      else
        match cs2 with
        | ':' :: cs3 =>
          match readDigits 2 0 cs3 with
          | none => none
          | some (ss, cs4) =>
            if 59 < ss then none
            else
              match cs4 with
              | '.' :: cs5 =>
                match readFracUs cs5 with
                | none => none
                | some (us, cs6) =>
                  (readOffsetTail cs6).map (fun off => ⟨mkNaiveUs y mo d hh mi ss us, off⟩)
              | _ => (readOffsetTail cs4).map (fun off => ⟨mkNaiveUs y mo d hh mi ss 0, off⟩)
        | _ => (readOffsetTail cs2).map (fun off => ⟨mkNaiveUs y mo d hh mi 0 0, off⟩)
  | _ => none

/-- Modelled from Python's `datetime.fromisoformat` — the external standard
library the analytics routes call — restricted to the shapes this system
stores: `YYYY-MM-DD`, optionally followed by `T` or a space and
`HH:MM[:SS[.ffffff]]`, optionally ending in a UTC offset `±HH:MM`.
A date-only or offset-free string parses to a *naive* datetime
(`tzoffset = none`); one carrying an offset parses *aware*.  Out-of-range
fields fail to parse, as in Python.  `pyFromIsoChars` is the character-level
core; `pyFromIso` applies it to a string. -/
def pyFromIsoChars (cs : List Char) : Option PyDateTime :=
  match readDigits 4 0 cs with
  | some (y, '-' :: cs2) =>
    match readDigits 2 0 cs2 with
    | some (mo, '-' :: cs4) =>
      match readDigits 2 0 cs4 with
      | none => none
      | some (d, cs5) =>
        if y < 1 || mo < 1 || 12 < mo || d < 1 || daysInMonth y mo < d then none
        else
          match cs5 with
          | [] => some ⟨mkNaiveUs y mo d 0 0 0 0, none⟩
          | sep :: cs6 =>
            if sep == 'T' || sep == ' ' then readTimeTail y mo d cs6 else none
    | _ => none
  | _ => none

/-- Python's `datetime.fromisoformat` applied to a string (see
`pyFromIsoChars`). -/
def pyFromIso (s : String) : Option PyDateTime := pyFromIsoChars s.data

/-- Python `s.replace("Z", "+00:00")` — the pattern is the single character
`Z`, so the replacement is a character-level map. -/
def replaceZ : List Char → List Char
  | [] => []
  | c :: cs =>
    if c == 'Z' then '+' :: '0' :: '0' :: ':' :: '0' :: '0' :: replaceZ cs
    else c :: replaceZ cs

/-- Python datetime comparison `a > b`; `none` models the `TypeError` Python
raises when exactly one side is offset-naive (the backend's bare `except:`
swallows that error). -/
def pyGtBool? (a b : PyDateTime) : Option Bool :=
  match a.tzoffset, b.tzoffset with
  | some oa, some ob => some (decide (a.naiveUs - oa * 60000000 > b.naiveUs - ob * 60000000))
  | none, none => some (decide (a.naiveUs > b.naiveUs))
  | _, _ => none

/-- One `try:` block of the upcoming-deadline scan: parse the string with
`Z` replaced by `+00:00`, compare with `now`; any failure (unparsable string
or naive/aware `TypeError`) is swallowed and the record contributes
nothing. -/
def deadlinePasses (now : PyDateTime) (s : String) : Bool :=
  match pyFromIsoChars (replaceZ s.data) with
  | none => false
  | some d =>
    match pyGtBool? d now with
    | none => false
    | some b => b

/-- Round half-to-even to an integer (Python's `round` tie rule). -/
def roundHalfEven (q : Rat) : Int :=
  let f := q.floor
  let r := q - (f : Rat)
  if r < 1/2 then f else if 1/2 < r then f + 1 else if f % 2 = 0 then f else f + 1

/-- Modelled from Python's `round(x, 1)` at the rational level: round
`10 * x` half-to-even and divide by 10.  (Python rounds the nearest binary
float, which can differ from the exact rational at ties; no claim below
hinges on a tie case.) -/
def pyRound1 (q : Rat) : Rat := (roundHalfEven (q * 10) : Rat) / 10

/-- One insertion step of the model of Python's `sorted`: place `x` before
the first element it is `le` to (equal elements keep their old order first —
stable, like Python's sort). -/
def insertLe (le : α → α → Bool) (x : α) : List α → List α
  | [] => [x]
  | y :: ys => if le x y then x :: y :: ys else y :: insertLe le x ys

/-- Model of Python's stable `sorted` / `list.sort` with comparison `le`
(structurally recursive, unlike `List.mergeSort`, so concrete instances
evaluate). -/
def sortPy (le : α → α → Bool) : List α → List α
  | [] => []
  | x :: xs => insertLe le x (sortPy le xs)

-- ============ ANALYTICS ROUTES ============

/-- One element of `upcoming_deadlines`: the literal dict the route builds;
`project_name` is only present on milestone entries. -/
structure DeadlineItem where
  type : String
  name : String
  deadline : String
  project_id : String
  project_name : Option String
deriving Repr, DecidableEq

/-- The response dict of `GET /analytics/overview`. -/
structure OverviewResult where
  total_projects : Nat
  active_projects : Nat
  completed_projects : Nat
  total_tasks : Nat
  completed_tasks : Nat
  in_progress_tasks : Nat
  todo_tasks : Int
  total_time_hours : Rat
  total_milestones : Nat
  completed_milestones : Nat
  upcoming_deadlines : List DeadlineItem
  task_completion_rate : Rat
deriving Repr, DecidableEq

/-- Sum of `duration_minutes` over one task's time entries. -/
def taskEntriesMinutes (t : Task) : Int := (t.time_entries.map (fun te => te.duration_minutes)).sum

/-- Sum of `duration_minutes` over every time entry of a project's tasks
(the inner two loops of both analytics routes). -/
def projectTotalMinutes (p : Project) : Int := (p.tasks.map taskEntriesMinutes).sum

/-- `GET /analytics/overview` (server.py `get_analytics_overview`), with
`now = datetime.now(timezone.utc)` passed in explicitly. -/
def get_analytics_overview (db : DB) (owner : String) (now : PyDateTime) : OverviewResult :=
  let projects := ownerProjects db owner
  let total_tasks := (projects.map (fun p => p.tasks.length)).sum
  let completed_tasks := (projects.map (fun p => p.tasks.countP (fun t => t.status == "done"))).sum
  let in_progress_tasks :=
    (projects.map (fun p => p.tasks.countP (fun t => t.status == "in_progress"))).sum
  let total_time_minutes := (projects.map projectTotalMinutes).sum
  let upcoming := projects.flatMap (fun p =>
    (match p.deadline with
     | some ds =>
       if ds != "" && deadlinePasses now ds then
         [⟨"project", p.name, ds, p.id, none⟩] else []
     | none => []) ++
    p.milestones.filterMap (fun m =>
      if !m.completed && m.due_date != "" && deadlinePasses now m.due_date then
        some ⟨"milestone", m.title, m.due_date, p.id, some p.name⟩
      else none))
  { total_projects := projects.length
    active_projects := projects.countP (fun p => p.status == "active")
    completed_projects := projects.countP (fun p => p.status == "completed")
    total_tasks := total_tasks
    completed_tasks := completed_tasks
    in_progress_tasks := in_progress_tasks
    todo_tasks := (total_tasks : Int) - (completed_tasks : Int) - (in_progress_tasks : Int)
    total_time_hours := pyRound1 ((total_time_minutes : Rat) / 60)
    total_milestones := (projects.map (fun p => p.milestones.length)).sum
    completed_milestones := (projects.map (fun p => p.milestones.countP (fun m => m.completed))).sum
    upcoming_deadlines := (sortPy (fun a b => a.deadline ≤ b.deadline) upcoming).take 5
    task_completion_rate :=
      pyRound1 (if 0 < total_tasks then (completed_tasks : Rat) / (total_tasks : Rat) * 100 else 0) }

/-- One element of `by_project` in the time-tracking response. -/
structure ProjectTime where
  name : String
  hours : Rat
  color : String
deriving Repr, DecidableEq

/-- One element of `daily` in the time-tracking response. -/
structure DailyItem where
  date : String
  hours : Rat
deriving Repr, DecidableEq

/-- `daily_times[date] = daily_times.get(date, 0) + minutes` on an
insertion-ordered dict, modelled as an association list with distinct keys. -/
def bucketAdd (b : List (String × Int)) (key : String) (m : Int) : List (String × Int) :=
  if b.any (fun kv => kv.1 == key) then
    b.map (fun kv => if kv.1 == key then (kv.1, kv.2 + m) else kv)
  else b ++ [(key, m)]

/-- Python `s[:10]` — the first 10 characters of a string. -/
def pySlice10 (s : String) : String := ⟨s.data.take 10⟩

/-- The per-entry body of the time-tracking loop: bucket the entry under the
first 10 characters of its date, skipping a falsy (empty) key. -/
def dailyAddEntry (b : List (String × Int)) (te : TimeEntry) : List (String × Int) :=
  let date := pySlice10 te.date
  if date != "" then bucketAdd b date te.duration_minutes else b

/-- The whole daily-bucket accumulation of `get_time_tracking_analytics`:
the nested loops over projects, tasks and entries threading `daily_times`. -/
def dailyTimesOf (projects : List Project) : List (String × Int) :=
  projects.foldl (fun b p => p.tasks.foldl (fun b t => t.time_entries.foldl dailyAddEntry b) b) []

/-- `GET /analytics/time-tracking` (server.py `get_time_tracking_analytics`):
per-project totals (skipping non-positive ones) and per-date buckets sorted
ascending by date with only the last 14 kept. -/
def get_time_tracking (db : DB) (owner : String) : List ProjectTime × List DailyItem :=
  let projects := ownerProjects db owner
  let project_times := projects.foldl (fun acc p =>
      if 0 < projectTotalMinutes p then
        acc ++ [{ name := p.name, hours := pyRound1 ((projectTotalMinutes p : Rat) / 60),
                  color := p.color }]
      else acc) ([] : List ProjectTime)
  let daily_list := (sortPy (fun a b => a.1 ≤ b.1) (dailyTimesOf projects)).map
      (fun kv => ({ date := kv.1, hours := pyRound1 ((kv.2 : Rat) / 60) } : DailyItem))
  (project_times, daily_list.drop (daily_list.length - 14))

-- ============ SPEC-SIDE (DERIVED) DEFINITIONS ============

/-- All tasks of a project list, in traversal order. -/
def allTasks (ps : List Project) : List Task := ps.flatMap Project.tasks

/-- All time entries of a project list, in traversal order (the order the
nested analytics loops visit them). -/
def allEntries (ps : List Project) : List TimeEntry :=
  ps.flatMap (fun p => p.tasks.flatMap Task.time_entries)

/-- The daily-bucket key an entry produces: the first 10 characters of its
date, or nothing when that key is falsy (empty). -/
def entryKey (te : TimeEntry) : Option String :=
  if pySlice10 te.date != "" then some (pySlice10 te.date) else none

/-- Total minutes attributed to one daily bucket key. -/
def keyMinutes (L : List TimeEntry) (k : String) : Int :=
  ((L.filter (fun te => pySlice10 te.date == k)).map (fun te => te.duration_minutes)).sum

/-- Spec-side reconstruction of the `daily` list: the distinct non-empty
date keys of the entries, sorted ascending, each with its summed minutes in
hours, keeping only the last 14. -/
def dailySpec (L : List TimeEntry) : List DailyItem :=
  let ks := sortPy (fun a b => a ≤ b) ((L.filterMap entryKey).dedup)
  let items := ks.map (fun k =>
    ({ date := k, hours := pyRound1 ((keyMinutes L k : Rat) / 60) } : DailyItem))
  items.drop (items.length - 14)

/-- Total value stored in an association list under one key. -/
def bucketVal (b : List (String × Int)) (k : String) : Int :=
  ((b.filter (fun kv => kv.1 == k)).map Prod.snd).sum

-- ============ EXAMPLE FIXTURES ============

/-- A concrete time entry. -/
def exEntry : TimeEntry :=
  { id := "e1", description := "", duration_minutes := 60, date := "2024-01-01",
    created_at := "C0" }

/-- A concrete completed task holding `exEntry`. -/
def exTask : Task :=
  { id := "t1", title := "Design", status := "done", completed_at := some "T0",
    created_at := "C0", time_entries := [exEntry] }

/-- A concrete incomplete milestone with a date-only due date. -/
def exMilestone : Milestone :=
  { id := "m1", title := "Beta", due_date := "2030-01-01" }

/-- A concrete project owned by "alice" with a date-only deadline. -/
def exProj : Project :=
  { id := "p1", name := "Launch", owner_id := "alice", deadline := some "2099-01-01",
    tasks := [exTask], milestones := [exMilestone], created_at := "C0", updated_at := "C0" }

/-- A singleton store. -/
def exDb : DB := [exProj]

/-- `datetime.now(timezone.utc)` frozen at 2026-10-12 00:00:00 UTC. -/
def exNow : PyDateTime := ⟨mkNaiveUs 2026 10 12 0 0 0 0, some 0⟩

-- ============ GENERIC LEMMAS ABOUT THE STORE OPERATIONS ============

theorem findOneAndUpdate_fst (pred : Project → Bool) (f : Project → Project) (db : DB) :
    (findOneAndUpdate pred f db).1 = (db.find? pred).map f := by
  induction db with
  | nil => rfl
  | cons p rest ih =>
    by_cases hp : pred p
    · simp [findOneAndUpdate, hp, List.find?_cons_of_pos _ hp]
    · simp only [Bool.not_eq_true] at hp
      have hneg : ¬ pred p = true := by simp [hp]
      simp [findOneAndUpdate, hp, List.find?_cons_of_neg _ hneg, ih]

theorem findOneAndUpdate_snd (pred : Project → Bool) (f : Project → Project) (db : DB) :
    (findOneAndUpdate pred f db).2 = updateFirstBy pred f db := by
  induction db with
  | nil => rfl
  | cons p rest ih =>
    by_cases hp : pred p
    · simp [findOneAndUpdate, updateFirstBy, hp]
    · simp only [Bool.not_eq_true] at hp
      simp [findOneAndUpdate, updateFirstBy, hp, ih]

theorem updateFirstBy_of_none {pred : α → Bool} {f : α → α} {l : List α}
    (h : ∀ x ∈ l, pred x = false) : updateFirstBy pred f l = l := by
  induction l with
  | nil => rfl
  | cons x xs ih =>
    have hx := h x (by simp)
    simp [updateFirstBy, hx, ih (fun y hy => h y (by simp [hy]))]

theorem find?_updateFirstBy {pred : α → Bool} {f : α → α} {l : List α} {a : α}
    (h : l.find? pred = some a) (hf : pred (f a) = true) :
    (updateFirstBy pred f l).find? pred = some (f a) := by
  induction l with
  | nil => simp at h
  | cons x xs ih =>
    by_cases hx : pred x
    · rw [List.find?_cons_of_pos _ hx] at h
      cases h
      simp [updateFirstBy, hx, List.find?_cons_of_pos _ hf]
    · rw [List.find?_cons_of_neg _ hx] at h
      simp [updateFirstBy, hx, List.find?_cons_of_neg _ hx, ih h]

theorem find?_after_updateFirstBy_id {db : DB} {owner pid : String}
    {f : Project → Project} {proj : Project}
    (hnd : (db.map Project.id).Nodup)
    (h : findProject db owner pid = some proj)
    (hfid : (f proj).id = proj.id) (hfo : (f proj).owner_id = proj.owner_id) :
    findProject (updateFirstBy (fun p => p.id == pid) f db) owner pid = some (f proj) := by
  induction db with
  | nil => simp [findProject] at h
  | cons p rest ih =>
    simp only [List.map_cons, List.nodup_cons] at hnd
    by_cases hpi : p.id = pid
    · by_cases hpo : p.owner_id = owner
      · have hpred : (fun q : Project => q.id == pid && q.owner_id == owner) p = true := by
          simp [hpi, hpo]
        rw [findProject,
            @List.find?_cons_of_pos _ (fun q : Project => q.id == pid && q.owner_id == owner)
              p rest hpred] at h
        cases h
        have hidp : (fun q : Project => q.id == pid) proj = true := by simp [hpi]
        have hnew : (fun q : Project => q.id == pid && q.owner_id == owner) (f proj) = true := by
          simp [hfid, hfo, hpi, hpo]
        simp only [updateFirstBy, if_pos hidp]
        rw [findProject,
            @List.find?_cons_of_pos _ (fun q : Project => q.id == pid && q.owner_id == owner)
              (f proj) rest hnew]
      · have hpred : ¬ (fun q : Project => q.id == pid && q.owner_id == owner) p = true := by
          simp [hpo]
        rw [findProject,
            @List.find?_cons_of_neg _ (fun q : Project => q.id == pid && q.owner_id == owner)
              p rest hpred] at h
        exfalso
        have hmem : proj ∈ rest := List.mem_of_find?_eq_some h
        have hpr := List.find?_some h
        have hprid : proj.id = pid := by
          simp only [Bool.and_eq_true, beq_iff_eq] at hpr
          exact hpr.1
        have : p.id ∈ List.map Project.id rest := by
          rw [hpi, ← hprid]
          exact List.mem_map_of_mem Project.id hmem
        exact hnd.1 this
    · have hpred : ¬ (fun q : Project => q.id == pid && q.owner_id == owner) p = true := by
        simp [hpi]
      rw [findProject,
          @List.find?_cons_of_neg _ (fun q : Project => q.id == pid && q.owner_id == owner)
            p rest hpred] at h
      have hid : ¬ (fun q : Project => q.id == pid) p = true := by simp [hpi]
      simp only [updateFirstBy, if_neg hid]
      rw [findProject,
          @List.find?_cons_of_neg _ (fun q : Project => q.id == pid && q.owner_id == owner)
            p (updateFirstBy (fun q : Project => q.id == pid) f rest) hpred]
      exact ih hnd.2 h

theorem foldl_flatMap {β γ : Type _} (g : β → γ → β) (h : α → List γ)
    (l : List α) (b : β) :
    l.foldl (fun b x => (h x).foldl g b) b = (l.flatMap h).foldl g b := by
  induction l generalizing b with
  | nil => rfl
  | cons x xs ih => simp [List.flatMap_cons, List.foldl_append, ih]

theorem foldl_accumulate {β : Type _} (c : α → Prop) [DecidablePred c] (g : α → β)
    (l : List α) (acc : List β) :
    l.foldl (fun acc x => if c x then acc ++ [g x] else acc) acc
      = acc ++ (l.filter (fun x => decide (c x))).map g := by
  induction l generalizing acc with
  | nil => simp
  | cons x xs ih => by_cases hc : c x <;> simp [List.filter_cons, hc, ih]

theorem sum_map_flatMap_int {γ : Type _} (f : γ → Int) (h : α → List γ) (l : List α) :
    ((l.flatMap h).map f).sum = (l.map (fun x => ((h x).map f).sum)).sum := by
  induction l with
  | nil => rfl
  | cons x xs ih => simp [List.flatMap_cons, ih]

-- ============ LEMMAS ABOUT THE DAILY-BUCKET DICTIONARY ============

theorem map_fst_update (b : List (String × Int)) (k : String) (m : Int) :
    (b.map (fun kv => if kv.1 == k then (kv.1, kv.2 + m) else kv)).map Prod.fst
      = b.map Prod.fst := by
  induction b with
  | nil => rfl
  | cons kv rest ih =>
    have h1 : (if kv.1 == k then (kv.1, kv.2 + m) else kv).1 = kv.1 := by
      by_cases hk : kv.1 = k <;> simp [hk]
    simp only [List.map_cons, h1, ih]

theorem bucketVal_cons (kv : String × Int) (b : List (String × Int)) (k : String) :
    bucketVal (kv :: b) k = (if kv.1 == k then kv.2 else 0) + bucketVal b k := by
  by_cases hk : kv.1 = k <;> simp [bucketVal, List.filter_cons, hk]

theorem bucketVal_zero_of_not_mem {b : List (String × Int)} {k : String}
    (h : k ∉ b.map Prod.fst) : bucketVal b k = 0 := by
  induction b with
  | nil => rfl
  | cons kv rest ih =>
    simp only [List.map_cons, List.mem_cons, not_or] at h
    have hne : ¬ kv.1 = k := fun he => h.1 he.symm
    rw [bucketVal_cons]
    simp [hne, ih h.2]

theorem bucketVal_of_mem {B : List (String × Int)} (hnd : (B.map Prod.fst).Nodup)
    {kv : String × Int} (h : kv ∈ B) : bucketVal B kv.1 = kv.2 := by
  induction B with
  | nil => simp at h
  | cons x rest ih =>
    simp only [List.map_cons, List.nodup_cons] at hnd
    rcases List.mem_cons.mp h with rfl | hmem
    · rw [bucketVal_cons]
      simp [bucketVal_zero_of_not_mem hnd.1]
    · have hne : ¬ x.1 = kv.1 :=
        fun he => hnd.1 (he ▸ List.mem_map_of_mem Prod.fst hmem)
      rw [bucketVal_cons]
      simp [hne, ih hnd.2 hmem]

theorem bucketAdd_cons_ne {kv : String × Int} {b : List (String × Int)} {k : String}
    {m : Int} (h : ¬ kv.1 = k) :
    bucketAdd (kv :: b) k m = kv :: bucketAdd b k m := by
  by_cases hany : (b.any (fun x => x.1 == k)) = true <;>
    simp [bucketAdd, List.any_cons, hany, h]

theorem map_update_id {rest : List (String × Int)} {k : String} {m : Int}
    (h : ∀ kv ∈ rest, ¬ kv.1 = k) :
    rest.map (fun kv => if kv.1 == k then (kv.1, kv.2 + m) else kv) = rest := by
  induction rest with
  | nil => rfl
  | cons kv r ih =>
    simp only [List.map_cons, ih (fun x hx => h x (by simp [hx]))]
    simp [h kv (by simp)]

theorem bucketAdd_keys_mem (b : List (String × Int)) (k : String) (m : Int) (k' : String) :
    k' ∈ (bucketAdd b k m).map Prod.fst ↔ (k' ∈ b.map Prod.fst ∨ k' = k) := by
  by_cases hany : (b.any (fun kv => kv.1 == k)) = true
  · have hk : k ∈ b.map Prod.fst := by
      rcases List.any_eq_true.mp hany with ⟨kv, hkv, hb⟩
      exact (beq_iff_eq.mp hb) ▸ List.mem_map_of_mem Prod.fst hkv
    simp only [bucketAdd, if_pos hany, map_fst_update]
    constructor
    · exact Or.inl
    · rintro (hmem | rfl)
      · exact hmem
      · exact hk
  · simp [bucketAdd, hany]

theorem bucketAdd_keys_nodup {b : List (String × Int)} {k : String} {m : Int}
    (h : (b.map Prod.fst).Nodup) : ((bucketAdd b k m).map Prod.fst).Nodup := by
  by_cases hany : (b.any (fun kv => kv.1 == k)) = true
  · simp only [bucketAdd, if_pos hany]
    rw [map_fst_update]
    exact h
  · have hany' : (b.any (fun kv => kv.1 == k)) = false := Bool.eq_false_iff.mpr hany
    have hk : k ∉ b.map Prod.fst := by
      intro hmem
      rcases List.mem_map.mp hmem with ⟨kv, hkv, rfl⟩
      exact (List.any_eq_false.mp hany' kv hkv) (by simp)
    simp [bucketAdd, hany, List.nodup_append, h, hk]

theorem bucketVal_add {b : List (String × Int)} {k : String} {m : Int}
    (hnd : (b.map Prod.fst).Nodup) (k' : String) :
    bucketVal (bucketAdd b k m) k' = bucketVal b k' + (if k' = k then m else 0) := by
  induction b with
  | nil =>
    have hb : bucketAdd [] k m = [(k, m)] := rfl
    rw [hb, bucketVal_cons]
    by_cases hk : k' = k
    · subst hk
      rw [if_pos (show (((k', m) : String × Int).1 == k') = true by simp), if_pos rfl]
      simp [bucketVal]
    · have hne : ¬ k = k' := fun h => hk h.symm
      rw [if_neg (show ¬ ((((k, m) : String × Int).1 == k') = true) by simp [hne]),
          if_neg hk]
      simp
  | cons kv rest ih =>
    simp only [List.map_cons, List.nodup_cons] at hnd
    by_cases hkeq : kv.1 = k
    · have hk : (kv.1 == k) = true := beq_iff_eq.mpr hkeq
      have hany : ((kv :: rest).any (fun x => x.1 == k)) = true := by
        simp [List.any_cons, hk]
      have hrest : ∀ x ∈ rest, ¬ x.1 = k := by
        intro x hx he
        exact hnd.1 (hkeq ▸ he ▸ List.mem_map_of_mem Prod.fst hx)
      simp only [bucketAdd, if_pos hany, List.map_cons, if_pos hk, map_update_id hrest]
      rw [bucketVal_cons, bucketVal_cons]
      by_cases hk' : kv.1 = k'
      · have he : k' = k := hk'.symm.trans hkeq
        have hb : (kv.1 == k') = true := beq_iff_eq.mpr hk'
        rw [if_pos hb, if_pos hb, if_pos he]
        have h0 : bucketVal rest k' = 0 := by
          apply bucketVal_zero_of_not_mem
          rw [← hk']
          exact hnd.1
        rw [h0]
        omega
      · have he : ¬ k' = k := fun hkk => hk' (hkeq.trans hkk.symm)
        have hb : (kv.1 == k') = false := by simp [hk']
        rw [if_neg (by simp [hb]), if_neg (by simp [hb]), if_neg he]
        omega
    · rw [bucketAdd_cons_ne hkeq]
      rw [bucketVal_cons, bucketVal_cons, ih hnd.2]
      omega

theorem keyMinutes_cons (te : TimeEntry) (L : List TimeEntry) (k : String) :
    keyMinutes (te :: L) k
      = (if pySlice10 te.date == k then te.duration_minutes else 0) + keyMinutes L k := by
  by_cases hk : pySlice10 te.date = k <;> simp [keyMinutes, List.filter_cons, hk]

/-- Structure of the dict built by the daily-bucket fold: keys stay distinct,
the key set is the set of non-empty date keys of the entries, and the value
under each non-empty key grows by exactly that key's minutes. -/
theorem fold_daily (L : List TimeEntry) (b : List (String × Int))
    (hnd : (b.map Prod.fst).Nodup) :
    ((L.foldl dailyAddEntry b).map Prod.fst).Nodup
    ∧ (∀ k', k' ∈ (L.foldl dailyAddEntry b).map Prod.fst
        ↔ (k' ∈ b.map Prod.fst ∨ k' ∈ L.filterMap entryKey))
    ∧ (∀ k', ¬ k' = "" →
        bucketVal (L.foldl dailyAddEntry b) k' = bucketVal b k' + keyMinutes L k') := by
  induction L generalizing b with
  | nil => exact ⟨hnd, by simp, fun k' _ => by simp [keyMinutes]⟩
  | cons te L' ih =>
    by_cases hte : pySlice10 te.date = ""
    · have hstep : dailyAddEntry b te = b := by
        simp [dailyAddEntry, hte]
      have hkey : entryKey te = none := by simp [entryKey, hte]
      obtain ⟨ih1, ih2, ih3⟩ := ih b hnd
      refine ⟨by simpa [List.foldl_cons, hstep] using ih1, ?_, ?_⟩
      · intro k'
        rw [List.foldl_cons, hstep, List.filterMap_cons, hkey]
        exact ih2 k'
      · intro k' hk'
        rw [List.foldl_cons, hstep, ih3 k' hk', keyMinutes_cons]
        have : ¬ pySlice10 te.date = k' := fun h => hk' (h ▸ hte)
        simp [this]
    · have hstep : dailyAddEntry b te = bucketAdd b (pySlice10 te.date) te.duration_minutes := by
        simp [dailyAddEntry, hte]
      have hkey : entryKey te = some (pySlice10 te.date) := by simp [entryKey, hte]
      have hnd' : ((bucketAdd b (pySlice10 te.date) te.duration_minutes).map Prod.fst).Nodup :=
        bucketAdd_keys_nodup hnd
      obtain ⟨ih1, ih2, ih3⟩ := ih (bucketAdd b (pySlice10 te.date) te.duration_minutes) hnd'
      refine ⟨by simpa [List.foldl_cons, hstep] using ih1, ?_, ?_⟩
      · intro k'
        rw [List.foldl_cons, hstep, List.filterMap_cons, hkey]
        rw [ih2 k', bucketAdd_keys_mem]
        simp only [List.mem_cons]
        exact or_assoc
      · intro k' hk'
        rw [List.foldl_cons, hstep, ih3 k' hk', bucketVal_add hnd k', keyMinutes_cons]
        by_cases hk : pySlice10 te.date = k'
        · rw [if_pos (beq_iff_eq.mpr hk), if_pos hk.symm]
          omega
        · rw [if_neg (fun h : k' = pySlice10 te.date => hk h.symm),
              if_neg (show ¬ ((pySlice10 te.date == k') = true) by simp [hk])]
          omega

theorem assoc_eq_of_keys_eq {X Y : List (String × Int)} {v : String → Int}
    (hk : X.map Prod.fst = Y.map Prod.fst)
    (hX : ∀ kv ∈ X, kv.2 = v kv.1) (hY : ∀ kv ∈ Y, kv.2 = v kv.1) : X = Y := by
  induction X generalizing Y with
  | nil =>
    cases Y with
    | nil => rfl
    | cons y ys => simp at hk
  | cons x xs ih =>
    cases Y with
    | nil => simp at hk
    | cons y ys =>
      simp only [List.map_cons, List.cons.injEq] at hk
      have hxy : x = y := by
        have h1 := hX x (by simp)
        have h2 := hY y (by simp)
        have : x.2 = y.2 := by rw [h1, h2, hk.1]
        exact Prod.ext hk.1 this
      subst hxy
      rw [ih hk.2 (fun kv hkv => hX kv (by simp [hkv])) (fun kv hkv => hY kv (by simp [hkv]))]

theorem sorted_assoc_unique {X Y : List (String × Int)} {v : String → Int}
    (hsX : List.Pairwise (fun a b : String × Int => a.1 ≤ b.1) X)
    (hsY : List.Pairwise (fun a b : String × Int => a.1 ≤ b.1) Y)
    (hnX : (X.map Prod.fst).Nodup) (hnY : (Y.map Prod.fst).Nodup)
    (hmem : ∀ k, k ∈ X.map Prod.fst ↔ k ∈ Y.map Prod.fst)
    (hX : ∀ kv ∈ X, kv.2 = v kv.1) (hY : ∀ kv ∈ Y, kv.2 = v kv.1) : X = Y := by
  have hkX : List.Sorted (fun a b : String => a ≤ b) (X.map Prod.fst) :=
    List.pairwise_map.mpr hsX
  have hkY : List.Sorted (fun a b : String => a ≤ b) (Y.map Prod.fst) :=
    List.pairwise_map.mpr hsY
  have hperm : (X.map Prod.fst).Perm (Y.map Prod.fst) :=
    (List.perm_ext_iff_of_nodup hnX hnY).mpr hmem
  exact assoc_eq_of_keys_eq (List.eq_of_perm_of_sorted hperm hkX hkY) hX hY

theorem insertLe_perm (le : α → α → Bool) (x : α) (l : List α) :
    (insertLe le x l).Perm (x :: l) := by
  induction l with
  | nil => exact List.Perm.refl _
  | cons y ys ih =>
    by_cases h : le x y = true
    · simp [insertLe, h]
    · simp only [insertLe, if_neg h]
      exact (ih.cons y).trans (List.Perm.swap x y ys)

theorem sortPy_perm (le : α → α → Bool) (l : List α) : (sortPy le l).Perm l := by
  induction l with
  | nil => exact List.Perm.refl _
  | cons x xs ih => exact (insertLe_perm le x (sortPy le xs)).trans (ih.cons x)

theorem insertLe_pairwise {le : α → α → Bool}
    (htrans : ∀ a b c, le a b = true → le b c = true → le a c = true)
    (htotal : ∀ a b, (le a b || le b a) = true)
    {x : α} {l : List α} (hl : List.Pairwise (fun a b => le a b = true) l) :
    List.Pairwise (fun a b => le a b = true) (insertLe le x l) := by
  induction l with
  | nil => simp [insertLe]
  | cons y ys ih =>
    rcases List.pairwise_cons.mp hl with ⟨hy, hys⟩
    by_cases h : le x y = true
    · simp only [insertLe, if_pos h]
      refine List.pairwise_cons.mpr ⟨?_, hl⟩
      intro z hz
      rcases List.mem_cons.mp hz with rfl | hzys
      · exact h
      · exact htrans x y z h (hy z hzys)
    · simp only [insertLe, if_neg h]
      refine List.pairwise_cons.mpr ⟨?_, ih hys⟩
      intro z hz
      have hz' : z ∈ x :: ys := (insertLe_perm le x ys).mem_iff.mp hz
      rcases List.mem_cons.mp hz' with hzx | hzys
      · rcases Bool.or_eq_true_iff.mp (htotal x y) with hxy | hyx
        · exact absurd hxy h
        · exact hzx ▸ hyx
      · exact hy z hzys

theorem sortPy_pairwise {le : α → α → Bool}
    (htrans : ∀ a b c, le a b = true → le b c = true → le a c = true)
    (htotal : ∀ a b, (le a b || le b a) = true) (l : List α) :
    List.Pairwise (fun a b => le a b = true) (sortPy le l) := by
  induction l with
  | nil => simp [sortPy]
  | cons x xs ih => exact insertLe_pairwise htrans htotal ih

theorem pairwise_key_le_sortPy (l : List (String × Int)) :
    List.Pairwise (fun a b : String × Int => a.1 ≤ b.1)
      (sortPy (fun a b => a.1 ≤ b.1) l) := by
  have h := @sortPy_pairwise _ (fun a b : String × Int => decide (a.1 ≤ b.1))
    (fun a b c hab hbc => by
      simp only [decide_eq_true_eq] at hab hbc ⊢
      exact le_trans hab hbc)
    (fun a b => by
      simp only [Bool.or_eq_true, decide_eq_true_eq]
      exact le_total a.1 b.1) l
  exact h.imp (fun hab => by simpa using hab)

theorem pairwise_le_sortPy_str (l : List String) :
    List.Pairwise (fun a b : String => a ≤ b) (sortPy (fun a b => a ≤ b) l) := by
  have h := @sortPy_pairwise _ (fun a b : String => decide (a ≤ b))
    (fun a b c hab hbc => by
      simp only [decide_eq_true_eq] at hab hbc ⊢
      exact le_trans hab hbc)
    (fun a b => by
      simp only [Bool.or_eq_true, decide_eq_true_eq]
      exact le_total a b) l
  exact h.imp (fun hab => by simpa using hab)


-- ============ CLAIMS ============

/-- C1 counterexample: a partial update supplying the empty-string status —
a supplied status that is not "done" — merges the status but leaves
`completed_at` untouched instead of clearing it to null, because the code's
`elif update_dict.get("status")` guard treats the empty string as falsy. -/
theorem update_task_empty_status_keeps_completed_at :
    (¬ ("" : String) = "done")
    ∧ (update_task exDb "alice" "p1" "t1" { status := some "" } "N1" "N2").1
        = Except.ok { exTask with status := "", completed_at := some "T0" }
    ∧ ¬ ((some "T0" : Option String) = none) := by
  exact ⟨by decide, rfl, by decide⟩

/-- C1 (amended): the task partial update merges every supplied non-null
field into the located task; it sets `completed_at = now` when the supplied
status is "done" and the prior status was not "done"; it clears
`completed_at` to null when the supplied status is non-empty and not
"done"; and it keeps the prior `completed_at` when no status is supplied —
or when the supplied status is the empty string (Python truthiness). -/
theorem update_task_merge_rule (db : DB) (caller pid tid : String)
    (u : TaskUpdate) (nowC nowU : String) (proj : Project) (told : Task)
    (h1 : findProject db caller pid = some proj)
    (h2 : proj.tasks.find? (fun t => t.id == tid) = some told) :
    ∃ tNew, (update_task db caller pid tid u nowC nowU).1 = Except.ok tNew
      ∧ ((u.status = some "done" ∧ ¬ told.status = "done") → tNew.completed_at = some nowC)
      ∧ (∀ s, u.status = some s → ¬ s = "done" → ¬ s = "" → tNew.completed_at = none)
      ∧ (u.status = none → tNew.completed_at = told.completed_at)
      ∧ (u.status = some "" → tNew.completed_at = told.completed_at)
      ∧ tNew.title = u.title.getD told.title
      ∧ tNew.description = u.description.getD told.description
      ∧ tNew.priority = u.priority.getD told.priority
      ∧ tNew.status = u.status.getD told.status
      ∧ tNew.due_date = (match u.due_date with | some d => some d | none => told.due_date)
      ∧ tNew.estimated_hours
          = (match u.estimated_hours with | some q => some q | none => told.estimated_hours)
      ∧ tNew.id = told.id ∧ tNew.created_at = told.created_at
      ∧ tNew.time_entries = told.time_entries := by
  refine ⟨applyTaskUpdate u nowC told, ?_, ?_, ?_, ?_, ?_,
    rfl, rfl, rfl, rfl, rfl, rfl, rfl, rfl, rfl⟩
  · simp [update_task, h1, h2]
  · rintro ⟨hs, hd⟩
    simp [applyTaskUpdate, hs, hd]
  · intro s hs hs1 hs2
    simp [applyTaskUpdate, hs, hs1, hs2]
  · intro hs
    simp [applyTaskUpdate, hs]
  · intro hs
    simp [applyTaskUpdate, hs]

/-- C1 witness: at the fixture, status "in_progress" (non-empty, not
"done") clears `completed_at` to null. -/
theorem update_task_merge_rule_witness :
    (findProject exDb "alice" "p1" = some exProj)
    ∧ (exProj.tasks.find? (fun t => t.id == "t1") = some exTask)
    ∧ ∃ tNew, (update_task exDb "alice" "p1" "t1"
        { status := some "in_progress" } "N1" "N2").1 = Except.ok tNew
        ∧ tNew.completed_at = none := by
  obtain ⟨tNew, hok, _, hclear, _⟩ := update_task_merge_rule exDb "alice" "p1" "t1"
    { status := some "in_progress" } "N1" "N2" exProj exTask rfl rfl
  exact ⟨rfl, rfl, tNew, hok, hclear "in_progress" rfl (by decide) (by decide)⟩

/-- C2 (code bug): the project with date-only deadline "2099-01-01" (and the
incomplete milestone due "2030-01-01") is silently excluded from
`upcoming_deadlines`: the string parses to an offset-naive datetime, Python
raises `TypeError` when comparing it with the offset-aware `now`, and the
bare `except:` swallows the error, so nothing is appended — contradicting
the spec's end-to-end property that the project appears. -/
theorem overview_naive_deadline_excluded :
    (pyFromIso "2099-01-01" = some ⟨mkNaiveUs 2099 1 1 0 0 0 0, none⟩)
    ∧ (pyGtBool? ⟨mkNaiveUs 2099 1 1 0 0 0 0, none⟩ exNow = none)
    ∧ (exNow.tzoffset = some 0)
    ∧ (exProj.deadline = some "2099-01-01")
    ∧ ((get_analytics_overview exDb "alice" exNow).upcoming_deadlines = []) :=
  ⟨rfl, rfl, rfl, rfl, rfl⟩

/-- C3: ownership isolation — for a project owned by A, a distinct caller
B's get/update/delete all fail with the same NotFound error produced when
no such project exists at all, and the store is untouched. -/
theorem ownership_isolation (db : DB) (A B pid : String) (p : Project)
    (u : ProjectUpdate) (now : String)
    (hnd : (db.map Project.id).Nodup)
    (hmem : p ∈ db) (hid : p.id = pid) (hown : p.owner_id = A) (hAB : ¬ B = A) :
    get_project db B pid = Except.error (ApiError.notFound "Project not found")
    ∧ get_project db B pid = get_project [] B pid
    ∧ (update_project db B pid u now).1
        = Except.error (ApiError.notFound "Project not found")
    ∧ (update_project db B pid u now).2 = db
    ∧ (delete_project db B pid).1 = Except.error (ApiError.notFound "Project not found")
    ∧ (delete_project db B pid).2 = db := by
  have hall : ∀ q ∈ db, (q.id == pid && q.owner_id == B) = false := by
    intro q hq
    simp only [Bool.and_eq_true, beq_iff_eq, Bool.eq_false_iff, ne_eq, not_and]
    intro hqid hqown
    have hqp : q = p := List.inj_on_of_nodup_map hnd hq hmem (by rw [hqid, hid])
    exact hAB (by rw [← hqown, hqp, hown])
  have hfind : findProject db B pid = none := by
    rw [findProject, List.find?_eq_none]
    intro q hq
    simp [hall q hq]
  have hfind' : List.find? (fun q : Project => q.id == pid && q.owner_id == B) db = none :=
    hfind
  have hany : db.any (fun q : Project => q.id == pid && q.owner_id == B) = false := by
    rw [List.any_eq_false]
    intro q hq
    rw [hall q hq]
    simp
  refine ⟨?_, ?_, ?_, ?_, ?_, ?_⟩
  · simp [get_project, hfind]
  · simp [get_project, hfind, findProject, hfind']
  · simp [update_project, findOneAndUpdate_fst, hfind']
  · simp [update_project, findOneAndUpdate_fst, findOneAndUpdate_snd, hfind',
      updateFirstBy_of_none hall]
  · simp [delete_project, hany]
  · simp [delete_project, hany]

/-- C3 witness: "bob" cannot see alice's project p1; the error equals the
empty-store error. -/
theorem ownership_isolation_witness :
    get_project exDb "bob" "p1" = Except.error (ApiError.notFound "Project not found")
    ∧ (update_project exDb "bob" "p1" {} "N").2 = exDb := by
  have h := ownership_isolation exDb "alice" "bob" "p1" exProj {} "N"
    (by decide) (by decide) rfl rfl (by decide)
  exact ⟨h.1, h.2.2.2.1⟩

/-- C4: the milestone completion toggle sets `completed` to the supplied
boolean and `completed_at` to now when true / null when false,
unconditionally — every other field, and any prior completion state, is
irrelevant (the theorem quantifies over an arbitrary prior milestone). -/
theorem milestone_toggle_rule (db : DB) (caller pid mid : String) (completed : Bool)
    (nowC nowU : String) (proj : Project) (mOld : Milestone)
    (h1 : findProject db caller pid = some proj)
    (h2 : proj.milestones.find? (fun m => m.id == mid) = some mOld) :
    (update_milestone db caller pid mid completed nowC nowU).1
      = Except.ok { mOld with completed := completed, completed_at := if completed then some nowC else none } := by
  simp [update_milestone, h1, h2, applyMilestoneToggle]

/-- C4 witness: toggling the already-incomplete fixture milestone. -/
theorem milestone_toggle_rule_witness :
    ((update_milestone exDb "alice" "p1" "m1" true "N1" "N2").1
      = Except.ok { exMilestone with completed := true, completed_at := some "N1" })
    ∧ ((update_milestone exDb "alice" "p1" "m1" false "N1" "N2").1
      = Except.ok { exMilestone with completed := false, completed_at := none }) :=
  ⟨milestone_toggle_rule exDb "alice" "p1" "m1" true "N1" "N2" exProj exMilestone rfl rfl,
   milestone_toggle_rule exDb "alice" "p1" "m1" false "N1" "N2" exProj exMilestone rfl rfl⟩

/-- C5: removing a task or milestone whose id is absent from an existing
owned project succeeds and leaves the sequences untouched (only updated_at
is refreshed), while the same removal against a missing or non-owned
project id fails with NotFound and leaves the store unchanged. -/
theorem delete_absent_idempotent (db : DB) (caller pid tid mid now : String)
    (proj : Project)
    (h1 : findProject db caller pid = some proj)
    (ht : ∀ t ∈ proj.tasks, ¬ t.id = tid)
    (hm : ∀ m ∈ proj.milestones, ¬ m.id = mid) :
    ((delete_task db caller pid tid now).1 = Except.ok ()
      ∧ findProject (delete_task db caller pid tid now).2 caller pid
          = some { proj with updated_at := now })
    ∧ ((delete_milestone db caller pid mid now).1 = Except.ok ()
      ∧ findProject (delete_milestone db caller pid mid now).2 caller pid
          = some { proj with updated_at := now })
    ∧ (∀ db', findProject db' caller pid = none →
        (delete_task db' caller pid tid now).1
            = Except.error (ApiError.notFound "Project not found")
        ∧ (delete_task db' caller pid tid now).2 = db'
        ∧ (delete_milestone db' caller pid mid now).1
            = Except.error (ApiError.notFound "Project not found")
        ∧ (delete_milestone db' caller pid mid now).2 = db') := by
  have h1' : List.find? (fun q : Project => q.id == pid && q.owner_id == caller) db
      = some proj := h1
  have hpred := @List.find?_some Project
    (fun q : Project => q.id == pid && q.owner_id == caller) proj db h1'
  have htfilter : proj.tasks.filter (fun t => !(t.id == tid)) = proj.tasks :=
    List.filter_eq_self.mpr (fun t htm => by simp [ht t htm])
  have hmfilter : proj.milestones.filter (fun m => !(m.id == mid)) = proj.milestones :=
    List.filter_eq_self.mpr (fun m hmm => by simp [hm m hmm])
  refine ⟨⟨?_, ?_⟩, ⟨?_, ?_⟩, ?_⟩
  · simp [delete_task, findOneAndUpdate_fst, h1']
  · have hres : (delete_task db caller pid tid now).2
        = updateFirstBy (fun q : Project => q.id == pid && q.owner_id == caller)
            (fun p => { p with tasks := p.tasks.filter (fun t => !(t.id == tid)), updated_at := now })
            db := by
      simp [delete_task, findOneAndUpdate_fst, findOneAndUpdate_snd, h1']
    rw [hres, findProject, find?_updateFirstBy h1' (by simpa using hpred)]
    simp [htfilter]
  · simp [delete_milestone, findOneAndUpdate_fst, h1']
  · have hres : (delete_milestone db caller pid mid now).2
        = updateFirstBy (fun q : Project => q.id == pid && q.owner_id == caller)
            (fun p => { p with milestones := p.milestones.filter (fun m => !(m.id == mid)), updated_at := now })
            db := by
      simp [delete_milestone, findOneAndUpdate_fst, findOneAndUpdate_snd, h1']
    rw [hres, findProject, find?_updateFirstBy h1' (by simpa using hpred)]
    simp [hmfilter]
  · intro db' hnone
    have hnone' : List.find? (fun q : Project => q.id == pid && q.owner_id == caller) db'
        = none := hnone
    have hall : ∀ q ∈ db', (fun q : Project => q.id == pid && q.owner_id == caller) q
        = false := by
      intro q hq
      exact Bool.eq_false_iff.mpr (List.find?_eq_none.mp hnone' q hq)
    refine ⟨?_, ?_, ?_, ?_⟩
    · simp [delete_task, findOneAndUpdate_fst, hnone']
    · simp [delete_task, findOneAndUpdate_fst, findOneAndUpdate_snd, hnone',
        updateFirstBy_of_none hall]
    · simp [delete_milestone, findOneAndUpdate_fst, hnone']
    · simp [delete_milestone, findOneAndUpdate_fst, findOneAndUpdate_snd, hnone',
        updateFirstBy_of_none hall]

/-- C5 witness: deleting an absent task id from the fixture project
succeeds and leaves its task list intact; the same call on an empty store
is NotFound. -/
theorem delete_absent_idempotent_witness :
    (∀ t ∈ exProj.tasks, ¬ t.id = "zz")
    ∧ (delete_task exDb "alice" "p1" "zz" "N9").1 = Except.ok ()
    ∧ findProject (delete_task exDb "alice" "p1" "zz" "N9").2 "alice" "p1"
        = some { exProj with updated_at := "N9" }
    ∧ (delete_milestone ([] : DB) "alice" "p1" "zz2" "N9").1
        = Except.error (ApiError.notFound "Project not found") := by
  have h := delete_absent_idempotent exDb "alice" "p1" "zz" "zz2" "N9" exProj rfl
    (by decide) (by decide)
  exact ⟨by decide, h.1.1, h.1.2, (h.2.2 [] rfl).2.2.1⟩

/-- C6: the project partial update applies exactly the supplied non-null
fields, always refreshes updated_at, leaves every other field (and the
nested tasks/milestones) untouched, and on NotFound leaves the store
unchanged. -/
theorem update_project_rule (db : DB) (caller pid : String) (u : ProjectUpdate)
    (now : String) (proj : Project)
    (h1 : findProject db caller pid = some proj) :
    ((update_project db caller pid u now).1 = Except.ok (applyProjectUpdate u now proj)
      ∧ (applyProjectUpdate u now proj).name = u.name.getD proj.name
      ∧ (applyProjectUpdate u now proj).description = u.description.getD proj.description
      ∧ (applyProjectUpdate u now proj).color = u.color.getD proj.color
      ∧ (applyProjectUpdate u now proj).deadline
          = (match u.deadline with | some d => some d | none => proj.deadline)
      ∧ (applyProjectUpdate u now proj).status = u.status.getD proj.status
      ∧ (applyProjectUpdate u now proj).updated_at = now
      ∧ (applyProjectUpdate u now proj).id = proj.id
      ∧ (applyProjectUpdate u now proj).owner_id = proj.owner_id
      ∧ (applyProjectUpdate u now proj).created_at = proj.created_at
      ∧ (applyProjectUpdate u now proj).tasks = proj.tasks
      ∧ (applyProjectUpdate u now proj).milestones = proj.milestones
      ∧ findProject (update_project db caller pid u now).2 caller pid
          = some (applyProjectUpdate u now proj))
    ∧ (∀ db', findProject db' caller pid = none →
        (update_project db' caller pid u now).1
            = Except.error (ApiError.notFound "Project not found")
        ∧ (update_project db' caller pid u now).2 = db') := by
  have h1' : List.find? (fun q : Project => q.id == pid && q.owner_id == caller) db
      = some proj := h1
  have hpred := @List.find?_some Project
    (fun q : Project => q.id == pid && q.owner_id == caller) proj db h1'
  constructor
  · refine ⟨?_, rfl, rfl, rfl, rfl, rfl, rfl, rfl, rfl, rfl, rfl, rfl, ?_⟩
    · simp [update_project, findOneAndUpdate_fst, h1']
    · have hres : (update_project db caller pid u now).2
          = updateFirstBy (fun q : Project => q.id == pid && q.owner_id == caller)
              (applyProjectUpdate u now) db := by
        simp [update_project, findOneAndUpdate_fst, findOneAndUpdate_snd, h1']
      rw [hres, findProject]
      exact find?_updateFirstBy h1' (by simpa [applyProjectUpdate] using hpred)
  · intro db' hnone
    have hnone' : List.find? (fun q : Project => q.id == pid && q.owner_id == caller) db'
        = none := hnone
    have hall : ∀ q ∈ db', (fun q : Project => q.id == pid && q.owner_id == caller) q
        = false := by
      intro q hq
      exact Bool.eq_false_iff.mpr (List.find?_eq_none.mp hnone' q hq)
    refine ⟨?_, ?_⟩
    · simp [update_project, findOneAndUpdate_fst, hnone']
    · simp [update_project, findOneAndUpdate_fst, findOneAndUpdate_snd, hnone',
        updateFirstBy_of_none hall]

/-- C6 witness: patching only the name of the fixture project keeps
description, color, deadline, status, tasks and milestones, and refreshes
updated_at. -/
theorem update_project_rule_witness :
    (update_project exDb "alice" "p1" { name := some "Renamed" } "N5").1
      = Except.ok (applyProjectUpdate { name := some "Renamed" } "N5" exProj)
    ∧ (applyProjectUpdate ({ name := some "Renamed" } : ProjectUpdate) "N5" exProj).name
        = "Renamed"
    ∧ (applyProjectUpdate ({ name := some "Renamed" } : ProjectUpdate) "N5" exProj).deadline
        = some "2099-01-01" := by
  have h := update_project_rule exDb "alice" "p1" { name := some "Renamed" } "N5" exProj rfl
  exact ⟨h.1.1, by decide, by decide⟩

theorem total_minutes_flatten (ps : List Project) :
    (ps.map projectTotalMinutes).sum
      = ((allEntries ps).map (fun te => te.duration_minutes)).sum := by
  rw [allEntries, sum_map_flatMap_int]
  congr 1
  apply List.map_congr_left
  intro p _
  rw [sum_map_flatMap_int]
  rfl

theorem pyRound1_zero : pyRound1 0 = 0 := by
  have h0 : (0 : Rat).floor = 0 := rfl
  have h : roundHalfEven 0 = 0 := by
    rw [roundHalfEven, h0]
    norm_num
  rw [pyRound1]
  norm_num [h]

/-- C7: the analytics overview derives todo_tasks by subtraction, sums every
time entry of every task of every project into total_time_hours, and guards
the completion rate against an empty task set. -/
theorem overview_aggregates (db : DB) (owner : String) (now : PyDateTime) :
    (get_analytics_overview db owner now).total_tasks
        = (allTasks (ownerProjects db owner)).length
    ∧ (get_analytics_overview db owner now).completed_tasks
        = (allTasks (ownerProjects db owner)).countP (fun t => t.status == "done")
    ∧ (get_analytics_overview db owner now).in_progress_tasks
        = (allTasks (ownerProjects db owner)).countP (fun t => t.status == "in_progress")
    ∧ (get_analytics_overview db owner now).todo_tasks
        = ((get_analytics_overview db owner now).total_tasks : Int)
          - ((get_analytics_overview db owner now).completed_tasks : Int)
          - ((get_analytics_overview db owner now).in_progress_tasks : Int)
    ∧ (get_analytics_overview db owner now).total_time_hours
        = pyRound1 (((((allEntries (ownerProjects db owner)).map
            (fun te => te.duration_minutes) : List Int).sum : Int) : Rat) / 60)
    ∧ (get_analytics_overview db owner now).task_completion_rate
        = (if (get_analytics_overview db owner now).total_tasks = 0 then 0
           else pyRound1 (((get_analytics_overview db owner now).completed_tasks : Rat)
              / ((get_analytics_overview db owner now).total_tasks : Rat) * 100)) := by
  have hT : (allTasks (ownerProjects db owner)).length
      = ((ownerProjects db owner).map (fun p => p.tasks.length)).sum := by
    rw [allTasks, List.length_flatMap]
    exact congrArg List.sum (List.map_congr_left (fun p _ => rfl))
  have hC : (allTasks (ownerProjects db owner)).countP (fun t => t.status == "done")
      = ((ownerProjects db owner).map
          (fun p => p.tasks.countP (fun t => t.status == "done"))).sum := by
    rw [allTasks, List.countP_flatMap]
    exact congrArg List.sum (List.map_congr_left (fun p _ => rfl))
  have hI : (allTasks (ownerProjects db owner)).countP (fun t => t.status == "in_progress")
      = ((ownerProjects db owner).map
          (fun p => p.tasks.countP (fun t => t.status == "in_progress"))).sum := by
    rw [allTasks, List.countP_flatMap]
    exact congrArg List.sum (List.map_congr_left (fun p _ => rfl))
  refine ⟨hT.symm, hC.symm, hI.symm, rfl, ?_, ?_⟩
  · show pyRound1 ((((ownerProjects db owner).map projectTotalMinutes).sum : Rat) / 60) = _
    rw [total_minutes_flatten]
  · have hrate : (get_analytics_overview db owner now).task_completion_rate
        = pyRound1 (if 0 < ((ownerProjects db owner).map (fun p => p.tasks.length)).sum
            then ((((ownerProjects db owner).map
                (fun p => p.tasks.countP (fun t => t.status == "done"))).sum : Nat) : Rat)
              / ((((ownerProjects db owner).map (fun p => p.tasks.length)).sum : Nat) : Rat)
              * 100
            else 0) := rfl
    have htt : (get_analytics_overview db owner now).total_tasks
        = ((ownerProjects db owner).map (fun p => p.tasks.length)).sum := rfl
    have hct : (get_analytics_overview db owner now).completed_tasks
        = ((ownerProjects db owner).map
            (fun p => p.tasks.countP (fun t => t.status == "done"))).sum := rfl
    rw [hrate, htt, hct]
    by_cases h : ((ownerProjects db owner).map (fun p => p.tasks.length)).sum = 0
    · rw [if_pos h, if_neg (by omega)]
      exact pyRound1_zero
    · rw [if_neg h, if_pos (by omega)]

/-- C9: every mutating operation — project field update; task append,
update, remove; time-entry append, remove; milestone append, toggle,
remove — refreshes the stored project's updated_at to the mutation time
`now` (unique project ids, the documented id invariant, are assumed;
nested operations additionally need their task or milestone to exist for
the mutation to happen at all). -/
theorem mutations_refresh_updated_at (db : DB) (caller pid : String) (proj : Project)
    (u : ProjectUpdate) (tu : TaskUpdate) (tc : TaskCreate) (ec : TimeEntryCreate)
    (mc : MilestoneCreate) (b : Bool) (tid mid eid fid nowA now : String)
    (hnd : (db.map Project.id).Nodup)
    (h1 : findProject db caller pid = some proj) :
    (findProject (update_project db caller pid u now).2 caller pid).map Project.updated_at
        = some now
    ∧ (findProject (create_task db caller pid tc fid nowA now).2 caller pid).map
        Project.updated_at = some now
    ∧ (∀ t0, proj.tasks.find? (fun t => t.id == tid) = some t0 →
        (findProject (update_task db caller pid tid tu nowA now).2 caller pid).map
          Project.updated_at = some now)
    ∧ (findProject (delete_task db caller pid tid now).2 caller pid).map Project.updated_at
        = some now
    ∧ (∀ t0, proj.tasks.find? (fun t => t.id == tid) = some t0 →
        (findProject (add_time_entry db caller pid tid ec eid nowA now).2 caller pid).map
          Project.updated_at = some now)
    ∧ (∀ t0, proj.tasks.find? (fun t => t.id == tid) = some t0 →
        (findProject (delete_time_entry db caller pid tid eid now).2 caller pid).map
          Project.updated_at = some now)
    ∧ (findProject (create_milestone db caller pid mc fid now).2 caller pid).map
        Project.updated_at = some now
    ∧ (∀ m0, proj.milestones.find? (fun m => m.id == mid) = some m0 →
        (findProject (update_milestone db caller pid mid b nowA now).2 caller pid).map
          Project.updated_at = some now)
    ∧ (findProject (delete_milestone db caller pid mid now).2 caller pid).map
        Project.updated_at = some now := by
  have h1' : List.find? (fun q : Project => q.id == pid && q.owner_id == caller) db
      = some proj := h1
  have hpred := @List.find?_some Project
    (fun q : Project => q.id == pid && q.owner_id == caller) proj db h1'
  refine ⟨?_, ?_, ?_, ?_, ?_, ?_, ?_, ?_, ?_⟩
  · have hres : (update_project db caller pid u now).2
        = updateFirstBy (fun q : Project => q.id == pid && q.owner_id == caller)
            (applyProjectUpdate u now) db := by
      simp [update_project, findOneAndUpdate_fst, findOneAndUpdate_snd, h1']
    rw [hres, findProject, find?_updateFirstBy h1' (by simpa [applyProjectUpdate] using hpred)]
    rfl
  · have hres : (create_task db caller pid tc fid nowA now).2
        = updateFirstBy (fun q : Project => q.id == pid && q.owner_id == caller)
            (fun p => { p with tasks := p.tasks ++ [{ id := fid, title := tc.title, description := tc.description.getD "", priority := tc.priority, status := "todo", due_date := tc.due_date, estimated_hours := tc.estimated_hours, time_entries := [], created_at := nowA, completed_at := none }], updated_at := now }) db := by
      simp [create_task, findOneAndUpdate_fst, findOneAndUpdate_snd, h1']
    rw [hres, findProject, find?_updateFirstBy h1' (by simpa using hpred)]
    rfl
  · intro t0 ht
    have hres : (update_task db caller pid tid tu nowA now).2
        = updateFirstBy (fun p : Project => p.id == pid)
            (fun p => { p with tasks := updateFirstBy (fun t => t.id == tid) (applyTaskUpdate tu nowA) proj.tasks, updated_at := now }) db := by
      simp [update_task, h1, ht]
    rw [hres, find?_after_updateFirstBy_id hnd h1 rfl rfl]
    rfl
  · have hres : (delete_task db caller pid tid now).2
        = updateFirstBy (fun q : Project => q.id == pid && q.owner_id == caller)
            (fun p => { p with tasks := p.tasks.filter (fun t => !(t.id == tid)), updated_at := now }) db := by
      simp [delete_task, findOneAndUpdate_fst, findOneAndUpdate_snd, h1']
    rw [hres, findProject, find?_updateFirstBy h1' (by simpa using hpred)]
    rfl
  · intro t0 ht
    have hres : (add_time_entry db caller pid tid ec eid nowA now).2
        = updateFirstBy (fun p : Project => p.id == pid)
            (fun p => { p with tasks := updateFirstBy (fun t => t.id == tid) (fun t => { t with time_entries := t.time_entries ++ [{ id := eid, description := ec.description.getD "", duration_minutes := ec.duration_minutes, date := ec.date, created_at := nowA }] }) proj.tasks, updated_at := now }) db := by
      simp [add_time_entry, h1, ht]
    rw [hres, find?_after_updateFirstBy_id hnd h1 rfl rfl]
    rfl
  · intro t0 ht
    have hres : (delete_time_entry db caller pid tid eid now).2
        = updateFirstBy (fun p : Project => p.id == pid)
            (fun p => { p with tasks := updateFirstBy (fun t => t.id == tid) (fun t => { t with time_entries := t.time_entries.filter (fun te => !(te.id == eid)) }) proj.tasks, updated_at := now }) db := by
      simp [delete_time_entry, h1, ht]
    rw [hres, find?_after_updateFirstBy_id hnd h1 rfl rfl]
    rfl
  · have hres : (create_milestone db caller pid mc fid now).2
        = updateFirstBy (fun q : Project => q.id == pid && q.owner_id == caller)
            (fun p => { p with milestones := p.milestones ++ [{ id := fid, title := mc.title, description := mc.description.getD "", due_date := mc.due_date, completed := false, completed_at := none }], updated_at := now }) db := by
      simp [create_milestone, findOneAndUpdate_fst, findOneAndUpdate_snd, h1']
    rw [hres, findProject, find?_updateFirstBy h1' (by simpa using hpred)]
    rfl
  · intro m0 hmfind
    have hres : (update_milestone db caller pid mid b nowA now).2
        = updateFirstBy (fun p : Project => p.id == pid)
            (fun p => { p with milestones := updateFirstBy (fun m => m.id == mid) (applyMilestoneToggle b nowA) proj.milestones, updated_at := now }) db := by
      simp [update_milestone, h1, hmfind]
    rw [hres, find?_after_updateFirstBy_id hnd h1 rfl rfl]
    rfl
  · have hres : (delete_milestone db caller pid mid now).2
        = updateFirstBy (fun q : Project => q.id == pid && q.owner_id == caller)
            (fun p => { p with milestones := p.milestones.filter (fun m => !(m.id == mid)), updated_at := now }) db := by
      simp [delete_milestone, findOneAndUpdate_fst, findOneAndUpdate_snd, h1']
    rw [hres, findProject, find?_updateFirstBy h1' (by simpa using hpred)]
    rfl

/-- C9 witness: at the fixture store, representative mutations of every
nesting level leave the stored project's updated_at at the mutation time. -/
theorem mutations_refresh_updated_at_witness :
    ((exDb.map Project.id).Nodup)
    ∧ (findProject (update_project exDb "alice" "p1" {} "N7").2 "alice" "p1").map
        Project.updated_at = some "N7"
    ∧ (findProject (update_task exDb "alice" "p1" "t1" {} "NA" "N7").2 "alice" "p1").map
        Project.updated_at = some "N7"
    ∧ (findProject (delete_time_entry exDb "alice" "p1" "t1" "e1" "N7").2 "alice" "p1").map
        Project.updated_at = some "N7"
    ∧ (findProject (update_milestone exDb "alice" "p1" "m1" true "NA" "N7").2 "alice" "p1").map
        Project.updated_at = some "N7" := by
  have h := mutations_refresh_updated_at exDb "alice" "p1" exProj {} {}
    { title := "T" } { duration_minutes := 5, date := "d" }
    { title := "M", due_date := "d" } true "t1" "m1" "e1" "f1" "NA" "N7"
    (by decide) rfl
  exact ⟨by decide, h.1, h.2.2.1 exTask rfl, h.2.2.2.2.2.1 exTask rfl,
    h.2.2.2.2.2.2.2.1 exMilestone rfl⟩

theorem dailyTimesOf_eq_fold (ps : List Project) :
    dailyTimesOf ps = (allEntries ps).foldl dailyAddEntry [] := by
  rw [dailyTimesOf,
      foldl_flatMap (fun b t => t.time_entries.foldl dailyAddEntry b) Project.tasks ps [],
      foldl_flatMap dailyAddEntry Task.time_entries (ps.flatMap Project.tasks) [],
      allEntries]
  rw [List.flatMap_assoc]

theorem foldl_dailyAdd_filter (L : List TimeEntry) (b : List (String × Int)) :
    (L.filter (fun te => te.date != "")).foldl dailyAddEntry b = L.foldl dailyAddEntry b := by
  induction L generalizing b with
  | nil => rfl
  | cons te L' ih =>
    by_cases h : te.date = ""
    · have hstep : dailyAddEntry b te = b := by
        have h10 : pySlice10 te.date = "" := by rw [h]; rfl
        simp [dailyAddEntry, h10]
    /- a falsy date contributes nothing, and the filter drops it -/
      simp [List.filter_cons, h, hstep, ih]
    · simp [List.filter_cons, h, ih]

/-- A copy of the store where every time entry whose date string is empty
has been removed (used to state what the empty-date entries do and do not
influence). -/
def stripEmptyDateEntries (p : Project) : Project :=
  { p with tasks := p.tasks.map (fun t =>
      { t with time_entries := t.time_entries.filter (fun te => te.date != "") }) }

/-- C10: a time entry with an empty date string still counts toward the
per-project minutes (hence the by_project hours) and the overview's
total_time_hours — both sums run over every entry with no date condition —
but it produces no daily bucket: the daily list is identical to the one
computed after deleting every empty-dated entry. -/
theorem empty_date_entries_rule (db : DB) (owner : String) (now : PyDateTime) :
    (get_time_tracking db owner).2
        = (get_time_tracking (db.map stripEmptyDateEntries) owner).2
    ∧ (∀ p : Project, projectTotalMinutes p
        = ((p.tasks.flatMap Task.time_entries).map (fun te => te.duration_minutes)
            : List Int).sum)
    ∧ (get_analytics_overview db owner now).total_time_hours
        = pyRound1 (((((allEntries (ownerProjects db owner)).map
            (fun te => te.duration_minutes) : List Int).sum : Int) : Rat) / 60) := by
  refine ⟨?_, ?_, ?_⟩
  · have hop : ownerProjects (db.map stripEmptyDateEntries) owner
        = (ownerProjects db owner).map stripEmptyDateEntries := by
      rw [ownerProjects, ownerProjects, List.filter_map, ← List.map_take]
      rfl
    have hAE : allEntries ((ownerProjects db owner).map stripEmptyDateEntries)
        = (allEntries (ownerProjects db owner)).filter (fun te => te.date != "") := by
      simp [allEntries, stripEmptyDateEntries, List.flatMap_map, List.filter_flatMap]
    have hdaily : dailyTimesOf (ownerProjects (db.map stripEmptyDateEntries) owner)
        = dailyTimesOf (ownerProjects db owner) := by
      rw [hop, dailyTimesOf_eq_fold, dailyTimesOf_eq_fold, hAE, foldl_dailyAdd_filter]
    show (let projects := ownerProjects db owner; _ : List ProjectTime × List DailyItem).2
        = _
    simp only [get_time_tracking]
    rw [hdaily]
  · intro p
    rw [projectTotalMinutes, sum_map_flatMap_int]
    rfl
  · show pyRound1 ((((ownerProjects db owner).map projectTotalMinutes).sum : Rat) / 60) = _
    rw [total_minutes_flatten]

theorem sorted_fold_eq_pairs (L : List TimeEntry) :
    sortPy (fun a b : String × Int => a.1 ≤ b.1) (L.foldl dailyAddEntry [])
      = (sortPy (fun a b : String => a ≤ b) (L.filterMap entryKey).dedup).map
          (fun k => (k, keyMinutes L k)) := by
  obtain ⟨hnodup, hmem, hval⟩ := fold_daily L [] (by simp)
  have hkeys_ne : ∀ k ∈ L.filterMap entryKey, ¬ k = "" := by
    intro k hk hke
    rcases List.mem_filterMap.mp hk with ⟨te, _, hek⟩
    rw [entryKey] at hek
    by_cases h10 : pySlice10 te.date = ""
    · rw [if_neg (by simp [h10])] at hek
      cases hek
    · rw [if_pos (by simpa using h10)] at hek
      cases hek
      exact h10 hke
  have hvals : ∀ kv ∈ L.foldl dailyAddEntry [], kv.2 = keyMinutes L kv.1 := by
    intro kv hkv
    have h2 : kv.1 ∈ (L.foldl dailyAddEntry []).map Prod.fst :=
      List.mem_map_of_mem Prod.fst hkv
    have h3 : kv.1 ∈ L.filterMap entryKey := by simpa using (hmem kv.1).mp h2
    have h4 := hval kv.1 (hkeys_ne kv.1 h3)
    have h5 := bucketVal_of_mem hnodup hkv
    have h6 : bucketVal ([] : List (String × Int)) kv.1 = 0 := rfl
    omega
  have hXperm := sortPy_perm (fun a b : String × Int => a.1 ≤ b.1) (L.foldl dailyAddEntry [])
  have hXsorted := pairwise_key_le_sortPy (L.foldl dailyAddEntry [])
  have hXnodup : ((sortPy (fun a b : String × Int => a.1 ≤ b.1)
      (L.foldl dailyAddEntry [])).map Prod.fst).Nodup :=
    ((hXperm.map Prod.fst).nodup_iff).mpr hnodup
  have hXvals : ∀ kv ∈ sortPy (fun a b : String × Int => a.1 ≤ b.1)
      (L.foldl dailyAddEntry []), kv.2 = keyMinutes L kv.1 :=
    fun kv hkv => hvals kv (hXperm.mem_iff.mp hkv)
  have hksperm := sortPy_perm (fun a b : String => a ≤ b) (L.filterMap entryKey).dedup
  have hkssorted := pairwise_le_sortPy_str (L.filterMap entryKey).dedup
  have hksnodup : (sortPy (fun a b : String => a ≤ b) (L.filterMap entryKey).dedup).Nodup :=
    (hksperm.nodup_iff).mpr (List.nodup_dedup _)
  have hYkeys : ((sortPy (fun a b : String => a ≤ b) (L.filterMap entryKey).dedup).map
      (fun k => (k, keyMinutes L k))).map Prod.fst
      = sortPy (fun a b : String => a ≤ b) (L.filterMap entryKey).dedup := by
    rw [List.map_map]
    exact (List.map_congr_left (fun k _ => rfl)).trans (List.map_id _)
  have hYsorted : List.Pairwise (fun a b : String × Int => a.1 ≤ b.1)
      ((sortPy (fun a b : String => a ≤ b) (L.filterMap entryKey).dedup).map
        (fun k => (k, keyMinutes L k))) :=
    List.Pairwise.map _ (fun a b hab => by simpa using hab) hkssorted
  have hYnodup : (((sortPy (fun a b : String => a ≤ b) (L.filterMap entryKey).dedup).map
      (fun k => (k, keyMinutes L k))).map Prod.fst).Nodup := by
    rw [hYkeys]
    exact hksnodup
  have hYvals : ∀ kv ∈ (sortPy (fun a b : String => a ≤ b)
      (L.filterMap entryKey).dedup).map (fun k => (k, keyMinutes L k)),
      kv.2 = keyMinutes L kv.1 := by
    intro kv hkv
    rcases List.mem_map.mp hkv with ⟨k, _, rfl⟩
    rfl
  have hmemXY : ∀ k, k ∈ (sortPy (fun a b : String × Int => a.1 ≤ b.1)
      (L.foldl dailyAddEntry [])).map Prod.fst
      ↔ k ∈ ((sortPy (fun a b : String => a ≤ b) (L.filterMap entryKey).dedup).map
          (fun k => (k, keyMinutes L k))).map Prod.fst := by
    intro k
    rw [hYkeys]
    constructor
    · intro hkX
      have h1 : k ∈ (L.foldl dailyAddEntry []).map Prod.fst :=
        (hXperm.map Prod.fst).mem_iff.mp hkX
      have h3 : k ∈ L.filterMap entryKey := by simpa using (hmem k).mp h1
      exact hksperm.mem_iff.mpr (List.mem_dedup.mpr h3)
    · intro hkk
      have h4 : k ∈ L.filterMap entryKey := List.mem_dedup.mp (hksperm.mem_iff.mp hkk)
      have h5 : k ∈ (L.foldl dailyAddEntry []).map Prod.fst := (hmem k).mpr (Or.inr h4)
      exact (hXperm.map Prod.fst).mem_iff.mpr h5
  exact sorted_assoc_unique hXsorted hYsorted hXnodup hYnodup hmemXY hXvals hYvals

theorem sorted_fold_eq_dailySpec (L : List TimeEntry) :
    (sortPy (fun a b : String × Int => a.1 ≤ b.1) (L.foldl dailyAddEntry [])).map
      (fun kv => ({ date := kv.1, hours := pyRound1 ((kv.2 : Rat) / 60) } : DailyItem))
      = (sortPy (fun a b : String => a ≤ b) (L.filterMap entryKey).dedup).map
          (fun k => ({ date := k, hours := pyRound1 ((keyMinutes L k : Rat) / 60) } : DailyItem)) := by
  rw [sorted_fold_eq_pairs, List.map_map]
  rfl

-- fixtures for the time-tracking counterexample
/-- A project whose single time entry has a negative duration (the API does
not validate `duration_minutes`). -/
def exProjNeg : Project :=
  { id := "pn", name := "Neg", owner_id := "carol", created_at := "C0", updated_at := "C0",
    tasks := [{ id := "tn", title := "T", created_at := "C0",
                time_entries := [{ id := "en", duration_minutes := -30,
                                   date := "2024-01-01", created_at := "C0" }] }] }

/-- A project whose single 60-minute entry carries an empty date string. -/
def exProjEmptyDate : Project :=
  { id := "pe", name := "Emp", owner_id := "carol", created_at := "C0", updated_at := "C0",
    tasks := [{ id := "te1", title := "T", created_at := "C0",
                time_entries := [{ id := "ee", duration_minutes := 60,
                                   date := "", created_at := "C0" }] }] }

/-- The two-project store of the counterexample. -/
def exDbC8 : DB := [exProjNeg, exProjEmptyDate]

/-- C8 counterexample: project "Neg" totals −30 minutes — nonzero, yet it is
omitted from by_project (the code keeps only strictly positive totals); and
the 60-minute entry with the empty date string produces no daily bucket at
all, although the claim says every time entry is bucketed by the first 10
characters of its date. -/
theorem time_tracking_negative_and_empty_date :
    (¬ projectTotalMinutes exProjNeg = 0)
    ∧ (get_time_tracking exDbC8 "carol").1.map ProjectTime.name = ["Emp"]
    ∧ (get_time_tracking exDbC8 "carol").2.map DailyItem.date = ["2024-01-01"]
    ∧ ((exProjEmptyDate.tasks.flatMap Task.time_entries).map TimeEntry.date = [""])
    ∧ ((exProjEmptyDate.tasks.flatMap Task.time_entries).map TimeEntry.duration_minutes
        = [60]) := by
  exact ⟨by decide, rfl, rfl, rfl, rfl⟩

/-- C8 (amended): the time-tracking report lists, per project with a
*strictly positive* total (zero or negative totals are omitted), its name,
color and hours; and the daily list is exactly: every time entry with a
*non-empty* date string bucketed by the first 10 characters of its date,
minutes summed per bucket, converted to hours rounded to 1 decimal, sorted
ascending by the date key, truncated to the last 14 buckets (the 14
greatest distinct dates that have entries, not a calendar window). -/
theorem time_tracking_rule (db : DB) (owner : String) :
    (get_time_tracking db owner).1
      = ((ownerProjects db owner).filter
          (fun p => decide (0 < projectTotalMinutes p))).map
          (fun p => ({ name := p.name,
                       hours := pyRound1 ((projectTotalMinutes p : Rat) / 60),
                       color := p.color } : ProjectTime))
    ∧ (get_time_tracking db owner).2 = dailySpec (allEntries (ownerProjects db owner)) := by
  constructor
  · simp only [get_time_tracking]
    rw [foldl_accumulate (fun p : Project => 0 < projectTotalMinutes p)
        (fun p : Project => ({ name := p.name, hours := pyRound1 ((projectTotalMinutes p : Rat) / 60), color := p.color } : ProjectTime))
        (ownerProjects db owner) []]
    simp
  · simp only [get_time_tracking, dailySpec]
    rw [dailyTimesOf_eq_fold, sorted_fold_eq_dailySpec]

end ProjectFlow
